import Mathlib

/-
Verification development for the transaction-webhook backend
(`transactions/views.py`, `transactions/tasks.py`, `transactions/serializers.py`,
`transactions/sqlalchemy_models.py`).

Shallow embedding conventions:
* The relational table `transactions` is a list of rows (`Store`); the primary
  key on `transaction_id` is what makes a duplicate `INSERT` raise
  `IntegrityError` at commit time.
* Timestamps are natural numbers; `datetime.utcnow()` is a parameter `now`.
* The `amount` column is `Numeric(20, 2)`; decimal values are embedded as the
  integer of hundredths (so `100.50` is `10050`), and the serializer bound
  `max_digits = 20` becomes `|scaled| < 10 ^ 20`.
* Vocabulary map between the specification and the code: the spec state
  `PENDING` is the code status `PROCESSING`, spec `COMPLETED` is code
  `PROCESSED`, spec `completedAt` is the column `processed_at`, spec
  `Accepted` is HTTP 202, spec `Rejected` is HTTP 400.
-/

/-- The `TransactionStatus` enum of `sqlalchemy_models.py`. -/
inductive TransactionStatus
  | PROCESSING
  | PROCESSED
deriving DecidableEq, Repr

/-- `status.value` as rendered by `get_transaction`. -/
def TransactionStatus.value : TransactionStatus → String
  | .PROCESSING => "PROCESSING"
  | .PROCESSED => "PROCESSED"

/-- One row of the `transactions` table (`class Transaction` in
`sqlalchemy_models.py`).  `created_at` has a server default and is never null;
`processed_at` is nullable. -/
structure Transaction where
  transaction_id : String
  source_account : String
  destination_account : String
  amount : Int
  currency : String
  status : TransactionStatus
  created_at : Nat
  processed_at : Option Nat
deriving DecidableEq, Repr

/-- The `transactions` table. -/
abbrev Store := List Transaction

/-- `db.query(Transaction).filter(Transaction.transaction_id == tid).first()`. -/
def queryFirst (s : Store) (tid : String) : Option Transaction :=
  s.find? (fun t => t.transaction_id == tid)

/-- The UPDATE that `db.commit()` issues in `process_transaction` after the
assignments `transaction.status = PROCESSED; transaction.processed_at = now`:
an update keyed on the primary key, unconditional on the current status. -/
def setProcessed (s : Store) (tid : String) (now : Nat) : Store :=
  s.map (fun t =>
    if t.transaction_id == tid then
      { t with status := .PROCESSED, processed_at := some now }
    else t)

/-- Number of rows whose `transaction_id` is `tid`. -/
def countId (s : Store) (tid : String) : Nat :=
  s.countP (fun t => t.transaction_id == tid)

/-- The raw webhook body handed to `TransactionWebhookSerializer`; `none`
models a missing field. -/
structure RawWebhook where
  transaction_id : Option String
  source_account : Option String
  destination_account : Option String
  amount : Option Int
  currency : Option String
deriving DecidableEq, Repr

/-- DRF `CharField(max_length = n)` with the default `required = True` and
`allow_blank = False`: present, nonempty, at most `n` characters.  (DRF also
trims surrounding whitespace first; no claim here depends on that.) -/
def charFieldOk (maxLength : Nat) : Option String → Bool
  | none => false
  | some v => v.length != 0 && v.length ≤ maxLength

/-- DRF `DecimalField(max_digits = 20, decimal_places = 2)` on the scaled
integer representation: present and fewer than `10 ^ 20` hundredths in
absolute value.  The field has no `min_value`, so the sign is not checked. -/
def decimalFieldOk (maxDigits : Nat) : Option Int → Bool
  | none => false
  | some v => v.natAbs < 10 ^ maxDigits

/-- `TransactionWebhookSerializer.is_valid()` from `serializers.py`. -/
def TransactionWebhookSerializer.is_valid (d : RawWebhook) : Bool :=
  charFieldOk 255 d.transaction_id &&
  charFieldOk 255 d.source_account &&
  charFieldOk 255 d.destination_account &&
  decimalFieldOk 20 d.amount &&
  charFieldOk 10 d.currency

/-- HTTP outcome of `webhook_transaction`: 202, 400, or the 500 produced by
the final `except Exception` branch. -/
inductive WebhookResponse
  | accepted
  | badRequest
  | serverError
deriving DecidableEq, Repr

/-- External round-trips of one `webhook_transaction` call, in program
order: the duplicate-check SELECT, the committed INSERT, and the Celery
enqueue `process_transaction.delay`. -/
inductive StoreEvent
  | query (tid : String)
  | commitInsert (tid : String)
  | enqueue (tid : String)
deriving DecidableEq, Repr

/-- Result of one `webhook_transaction` call: the HTTP response, the table
afterwards, the task ids handed to `process_transaction.delay`, and the
ordered trace of external round-trips. -/
structure WebhookOutcome where
  response : WebhookResponse
  store : Store
  enqueued : List String
  events : List StoreEvent
deriving DecidableEq, Repr

/-- The row built by `Transaction(...)` in `webhook_transaction`: status
defaults to `PROCESSING`, `created_at` to now, `processed_at` to null. -/
def newTransaction (d : RawWebhook) (now : Nat) : Transaction :=
  { transaction_id := d.transaction_id.getD ""
    source_account := d.source_account.getD ""
    destination_account := d.destination_account.getD ""
    amount := d.amount.getD 0
    currency := d.currency.getD ""
    status := .PROCESSING
    created_at := now
    processed_at := none }

/-- `webhook_transaction` from `views.py`, run to completion with no
interleaved writer (the lost-race `IntegrityError` branch needs another
writer between the SELECT and the commit; it is modeled in `stepThread`
below).  `delayOk` tells whether `process_transaction.delay` succeeds; when
it raises, control reaches `except Exception`, which calls `db.rollback()`
— a no-op for the already committed INSERT — and returns a 500 with the
error text. -/
def webhook_transaction (now : Nat) (delayOk : Bool) (s : Store) (d : RawWebhook) :
    WebhookOutcome :=
  if TransactionWebhookSerializer.is_valid d = false then
    { response := .badRequest, store := s, enqueued := [], events := [] }
  else
    let tid := d.transaction_id.getD ""
    match queryFirst s tid with
    | some _ =>
      { response := .accepted, store := s, enqueued := [], events := [.query tid] }
    | none =>
      let s' := s ++ [newTransaction d now]
      if delayOk then
        { response := .accepted, store := s', enqueued := [tid],
          events := [.query tid, .commitInsert tid, .enqueue tid] }
      else
        { response := .serverError, store := s', enqueued := [],
          events := [.query tid, .commitInsert tid] }

/-- Return value of `process_transaction`: the three message strings of
`tasks.py` (`"... not found"`, `"... already processed"`,
`"... processed successfully"`).  The `except Exception` branch is only
reachable through store failures, which the model store never produces. -/
inductive FinalizeResult
  | notFound
  | alreadyProcessed
  | success
deriving DecidableEq, Repr

/-- `process_transaction` from `tasks.py`, run to completion with no
interleaved writer: lookup, early return when absent or already
`PROCESSED`, otherwise `time.sleep(30)` and then the unconditional
completion write. -/
def process_transaction (now : Nat) (s : Store) (tid : String) :
    FinalizeResult × Store :=
  match queryFirst s tid with
  | none => (.notFound, s)
  | some t =>
    if t.status = .PROCESSED then (.alreadyProcessed, s)
    else (.success, setProcessed s tid now)

/-- The JSON object `get_transaction` builds for a found row (the code wraps
it in a one-element list; `created_at`/`processed_at` are rendered as ISO
strings when present and null otherwise). -/
structure TransactionView where
  transaction_id : String
  source_account : String
  destination_account : String
  amount : Int
  currency : String
  status : String
  created_at : Option Nat
  processed_at : Option Nat
deriving DecidableEq, Repr

/-- `get_transaction` from `views.py`; `none` is the 404 branch. -/
def get_transaction (s : Store) (tid : String) : Option TransactionView :=
  (queryFirst s tid).map (fun t =>
    { transaction_id := t.transaction_id
      source_account := t.source_account
      destination_account := t.destination_account
      amount := t.amount
      currency := t.currency
      status := t.status.value
      created_at := some t.created_at
      processed_at := t.processed_at })

/-- Sequential redeliveries: run `process_transaction` once per timestamp in
`times`, each invocation finishing before the next starts. -/
def runFinalizes (tid : String) : List Nat → Store → List FinalizeResult × Store
  | [], s => ([], s)
  | now :: rest, s =>
    let p := process_transaction now s tid
    let q := runFinalizes tid rest p.2
    (p.1 :: q.1, q.2)

/-
Interleaved semantics.  Each HTTP request and each Celery task delivery is a
thread; a thread advances one store round-trip at a time so that other
threads can act between the duplicate-check SELECT and the commit (the
window in which `db.commit()` raises `IntegrityError`), and between the
finalizer lookup and its completion write (the 30 second `time.sleep`).
-/

/-- Progress of one `webhook_transaction` invocation through its store
round-trips.  Validation is pure and happens together with the first
round-trip; `insertPending` sits between the SELECT and the commit. -/
inductive SubmitPhase
  | start
  | insertPending (newT : Transaction)
  | done (resp : WebhookResponse) (enqueued : Bool)
deriving DecidableEq, Repr

/-- Progress of one `process_transaction` invocation.  `writePending` is the
30 second sleep after the status check passed and before the write. -/
inductive FinalizePhase
  | start
  | writePending
  | done (res : FinalizeResult)
deriving DecidableEq, Repr

/-- An in-flight invocation: an intake request (with its payload, clock
reading and whether its `delay` call will succeed) or a finalizer task
delivery. -/
inductive Thread
  | submit (d : RawWebhook) (now : Nat) (delayOk : Bool) (ph : SubmitPhase)
  | finalize (tid : String) (now : Nat) (ph : FinalizePhase)
deriving DecidableEq, Repr

/-- Advance one thread by one store round-trip against the shared table. -/
def stepThread (s : Store) : Thread → Thread × Store
  | .submit d now delayOk ph =>
    match ph with
    | .start =>
      if TransactionWebhookSerializer.is_valid d = false then
        (.submit d now delayOk (.done .badRequest false), s)
      else
        match queryFirst s (d.transaction_id.getD "") with
        | some _ => (.submit d now delayOk (.done .accepted false), s)
        | none => (.submit d now delayOk (.insertPending (newTransaction d now)), s)
    | .insertPending newT =>
      -- db.commit(): atomic at the store; the primary key on transaction_id
      -- makes a duplicate insert raise IntegrityError, which the handler
      -- catches, rolls back, and answers 202 with no dispatch.
      if (queryFirst s newT.transaction_id).isSome then
        (.submit d now delayOk (.done .accepted false), s)
      else if delayOk then
        (.submit d now delayOk (.done .accepted true), s ++ [newT])
      else
        -- the commit is durable; the failing delay lands in except Exception,
        -- whose rollback undoes nothing, and the view answers 500.
        (.submit d now delayOk (.done .serverError false), s ++ [newT])
    | .done r e => (.submit d now delayOk (.done r e), s)
  | .finalize tid now ph =>
    match ph with
    | .start =>
      match queryFirst s tid with
      | none => (.finalize tid now (.done .notFound), s)
      | some t =>
        if t.status = .PROCESSED then (.finalize tid now (.done .alreadyProcessed), s)
        else (.finalize tid now .writePending, s)
    | .writePending =>
      -- after time.sleep(30): the write is keyed on the primary key only,
      -- with no condition on the current status.
      (.finalize tid now (.done .success), setProcessed s tid now)
    | .done r => (.finalize tid now (.done r), s)

/-- Shared table plus the in-flight invocations. -/
structure Config where
  store : Store
  threads : List Thread
deriving DecidableEq, Repr

/-- Scheduler step: advance thread `i` by one round-trip (out-of-range
indices do nothing). -/
def step (c : Config) (i : Nat) : Config :=
  match c.threads.get? i with
  | none => c
  | some t =>
    let p := stepThread c.store t
    { store := p.2, threads := c.threads.set i p.1 }

/-- Run a whole schedule of thread choices. -/
def run (c : Config) (sched : List Nat) : Config :=
  sched.foldl step c

/-
Invariants of the interleaved semantics.
-/

/-- The thread is a finished `webhook_transaction` call. -/
def submitDoneB : Thread → Bool
  | .submit _ _ _ (.done _ _) => true
  | _ => false

/-- The thread is a finished `webhook_transaction` call that handed a task
to `process_transaction.delay`. -/
def enqueuedB : Thread → Bool
  | .submit _ _ _ (.done _ true) => true
  | _ => false

/-- Number of finished calls that enqueued a finalize task. -/
def countEnq (ts : List Thread) : Nat :=
  ts.countP enqueuedB

/-- A pending insert row produced by the code always carries the id of its
payload, the default status, and a null completion time. -/
def phaseOkB (tid : String) : SubmitPhase → Bool
  | .insertPending newT =>
      newT.transaction_id == tid && newT.status == TransactionStatus.PROCESSING &&
        newT.processed_at == none
  | _ => true

/-- The thread is a `webhook_transaction` call carrying a valid payload for
the id `tid` (the shape every intake request for `tid` has). -/
def threadOkB (tid : String) : Thread → Bool
  | .submit d _ _ ph =>
      TransactionWebhookSerializer.is_valid d && (d.transaction_id == some tid) &&
        phaseOkB tid ph
  | .finalize _ _ _ => false

/-- Invariant tying the intake threads for one id to the table: every
thread is an intake call for `tid` with a well-formed pending row, the
table holds at most one row for `tid`, any finished call implies the row
exists, and at most as many calls enqueued a task as there are rows. -/
def SubmitInv (tid : String) (c : Config) : Prop :=
  (∀ t ∈ c.threads, threadOkB tid t = true) ∧
  countId c.store tid ≤ 1 ∧
  (∀ t ∈ c.threads, submitDoneB t = true → countId c.store tid = 1) ∧
  countEnq c.threads ≤ countId c.store tid

/-- The `completedAt` consistency of one row: `processed_at` is set exactly
when the status is `PROCESSED`. -/
def recordConsistent (t : Transaction) : Bool :=
  t.processed_at.isSome == (t.status == TransactionStatus.PROCESSED)

/-- A pending insert row is consistent; all other thread phases impose
nothing. -/
def pendingRowOkB : Thread → Bool
  | .submit _ _ _ (.insertPending newT) => recordConsistent newT
  | _ => true

/-- Invariant for the completedAt/state relation: every stored row and every
pending insert row is consistent. -/
def StateInv (c : Config) : Prop :=
  (∀ t ∈ c.store, recordConsistent t = true) ∧
  (∀ th ∈ c.threads, pendingRowOkB th = true)

/-
Concrete sample data used by witnesses and counterexamples.
-/

/-- The payload of the specification scenario: `id="tx-1"`, source `A`,
destination `B`, amount `100.50` (scaled to 10050), currency `USD`. -/
def sampleBody : RawWebhook :=
  { transaction_id := some "tx-1", source_account := some "A",
    destination_account := some "B", amount := some 10050,
    currency := some "USD" }

/-- A payload with a negative amount, `-100.50`. -/
def negBody : RawWebhook :=
  { transaction_id := some "tx-neg", source_account := some "A",
    destination_account := some "B", amount := some (-10050),
    currency := some "USD" }

/-- A payload with missing fields (destination, amount, currency absent). -/
def missingBody : RawWebhook :=
  { transaction_id := some "tx-2", source_account := some "A",
    destination_account := none, amount := none, currency := none }

/-- A duplicate submission for `tx-1` whose every other field differs from
the stored row. -/
def altBody : RawWebhook :=
  { transaction_id := some "tx-1", source_account := some "X",
    destination_account := some "Y", amount := some 99999,
    currency := some "EUR" }

/-- A stored `tx-1` row still `PROCESSING`. -/
def raceRow : Transaction :=
  { transaction_id := "tx-1", source_account := "A",
    destination_account := "B", amount := 10050, currency := "USD",
    status := .PROCESSING, created_at := 0, processed_at := none }

/-- A stored `tx-1` row already `PROCESSED`. -/
def processedRow : Transaction :=
  { raceRow with status := .PROCESSED, processed_at := some 50 }

/-- Three concurrent intake requests for `tx-1` over an empty table. -/
def c1Config : Config :=
  { store := [],
    threads := [.submit sampleBody 3 true .start, .submit sampleBody 5 true .start,
                .submit sampleBody 7 true .start] }

/-- Two concurrent finalizer deliveries for `tx-1` (clock readings 100 and
200) over a table holding the pending row. -/
def raceConfig : Config :=
  { store := [raceRow],
    threads := [.finalize "tx-1" 100 .start, .finalize "tx-1" 200 .start] }

/-- A mixed population: a pending `tx-1` row, one finalizer delivery for it,
and one intake request for a different id. -/
def c9Config : Config :=
  { store := [newTransaction sampleBody 0],
    threads := [.finalize "tx-1" 9 .start, .submit negBody 2 true .start] }

def completedRow : Transaction :=
  { newTransaction sampleBody 0 with
    status := .PROCESSED, processed_at := some 9 }

/-
Helper lemmas about the store primitives.
-/

theorem queryFirst_eq_none_iff (s : Store) (tid : String) :
    queryFirst s tid = none ↔ countId s tid = 0 := by
  induction s with
  | nil => simp [queryFirst, countId]
  | cons t rest ih =>
    by_cases h : t.transaction_id == tid
    · simp [queryFirst, countId, List.find?_cons_of_pos, List.countP_cons, h]
    · simp only [queryFirst, countId] at ih
      simp [queryFirst, countId, List.find?_cons_of_neg, List.countP_cons, h, ih]

theorem countId_pos_of_isSome (s : Store) (tid : String)
    (h : (queryFirst s tid).isSome = true) : 0 < countId s tid := by
  rcases Nat.eq_zero_or_pos (countId s tid) with h0 | h0
  · rw [← queryFirst_eq_none_iff] at h0
    rw [h0] at h
    simp at h
  · exact h0

theorem countId_append (s : Store) (t : Transaction) (tid : String) :
    countId (s ++ [t]) tid =
      countId s tid + (if t.transaction_id == tid then 1 else 0) := by
  simp [countId, List.countP_append, List.countP_cons]

theorem queryFirst_append_right (s : Store) (t : Transaction) (tid : String)
    (hs : queryFirst s tid = none) (ht : t.transaction_id = tid) :
    queryFirst (s ++ [t]) tid = some t := by
  unfold queryFirst at hs ⊢
  rw [List.find?_append, hs]
  have hp : (t.transaction_id == tid) = true := by simp [ht]
  simp [List.find?, hp, Option.or]

theorem queryFirst_setProcessed (s : Store) (tid : String) (now : Nat) :
    queryFirst (setProcessed s tid now) tid =
      (queryFirst s tid).map
        (fun t => { t with status := .PROCESSED, processed_at := some now }) := by
  unfold queryFirst setProcessed
  rw [List.find?_map]
  have hpf : ((fun t : Transaction => t.transaction_id == tid) ∘
      (fun t => if t.transaction_id == tid then
        { t with status := TransactionStatus.PROCESSED, processed_at := some now }
      else t)) = fun t : Transaction => t.transaction_id == tid := by
    funext x
    by_cases h : x.transaction_id == tid <;> simp [Function.comp, h]
  rw [hpf]
  cases hfind : List.find? (fun t => t.transaction_id == tid) s with
  | none => rfl
  | some t =>
    have ht := List.find?_some hfind
    simp only [Option.map]
    simp [ht]

theorem countP_set_eq {α : Type} (p : α → Bool) :
    ∀ (ts : List α) (i : Nat) (t t' : α), ts.get? i = some t →
      (ts.set i t').countP p + (if p t then 1 else 0) =
        ts.countP p + (if p t' then 1 else 0) := by
  intro ts
  induction ts with
  | nil => intro i t t' h; cases h
  | cons a rest ih =>
    intro i t t' h
    cases i with
    | zero =>
      have ha : a = t := by simpa using h
      subst ha
      simp only [List.set_cons_zero, List.countP_cons]
      cases hp : p a <;> cases hp' : p t' <;> simp [hp, hp']
    | succ n =>
      have h' : rest.get? n = some t := by simpa using h
      have hrec := ih n t t' h'
      simp only [List.set_cons_succ, List.countP_cons]
      cases hp : p a <;> cases hp2 : p t <;> cases hp3 : p t' <;>
        simp [hp, hp2, hp3] at hrec ⊢ <;> omega

theorem step_eq_of_none (c : Config) (i : Nat) (h : c.threads.get? i = none) :
    step c i = c := by
  unfold step
  rw [h]

theorem step_eq_of_some (c : Config) (i : Nat) (t : Thread)
    (h : c.threads.get? i = some t) :
    step c i =
      { store := (stepThread c.store t).2,
        threads := c.threads.set i (stepThread c.store t).1 } := by
  unfold step
  rw [h]

theorem countEnq_set (ts : List Thread) (i : Nat) (t t' : Thread)
    (h : ts.get? i = some t) :
    countEnq (ts.set i t') + (if enqueuedB t then 1 else 0) =
      countEnq ts + (if enqueuedB t' then 1 else 0) :=
  countP_set_eq enqueuedB ts i t t' h

theorem SubmitInv_step (tid : String) (c : Config) (i : Nat)
    (h : SubmitInv tid c) : SubmitInv tid (step c i) := by
  obtain ⟨hok, hcount, hdone, henq⟩ := h
  cases hget : c.threads.get? i with
  | none => rw [step_eq_of_none c i hget]; exact ⟨hok, hcount, hdone, henq⟩
  | some t =>
    rw [step_eq_of_some c i t hget]
    have hmem : t ∈ c.threads := List.get?_mem hget
    have htok := hok t hmem
    cases t with
    | finalize tid2 now2 ph2 => simp [threadOkB] at htok
    | submit d now delayOk ph =>
      simp only [threadOkB, Bool.and_eq_true, beq_iff_eq] at htok
      obtain ⟨⟨hval, htid⟩, hph⟩ := htok
      cases ph with
      | start =>
        cases hq : queryFirst c.store tid with
        | some r =>
          have hstep : stepThread c.store (Thread.submit d now delayOk .start) =
              (Thread.submit d now delayOk (.done .accepted false), c.store) := by
            simp [stepThread, hval, htid, hq]
          rw [hstep]
          refine ⟨?_, hcount, ?_, ?_⟩
          · intro x hx
            rcases List.mem_or_eq_of_mem_set hx with hx' | rfl
            · exact hok x hx'
            · simp [threadOkB, phaseOkB, hval, htid]
          · intro x hx _
            show countId c.store tid = 1
            have hpos : 0 < countId c.store tid :=
              countId_pos_of_isSome c.store tid (by simp [hq])
            omega
          · show countEnq (c.threads.set i
                (Thread.submit d now delayOk (.done .accepted false))) ≤
              countId c.store tid
            have hset := countEnq_set c.threads i _
              (Thread.submit d now delayOk (.done .accepted false)) hget
            simp [enqueuedB] at hset
            omega
        | none =>
          have hstep : stepThread c.store (Thread.submit d now delayOk .start) =
              (Thread.submit d now delayOk (.insertPending (newTransaction d now)),
                c.store) := by
            simp [stepThread, hval, htid, hq]
          rw [hstep]
          refine ⟨?_, hcount, ?_, ?_⟩
          · intro x hx
            rcases List.mem_or_eq_of_mem_set hx with hx' | rfl
            · exact hok x hx'
            · simp [threadOkB, phaseOkB, newTransaction, hval, htid]
          · intro x hx hxdone
            show countId c.store tid = 1
            rcases List.mem_or_eq_of_mem_set hx with hx' | rfl
            · exact hdone x hx' hxdone
            · simp [submitDoneB] at hxdone
          · show countEnq (c.threads.set i
                (Thread.submit d now delayOk (.insertPending (newTransaction d now)))) ≤
              countId c.store tid
            have hset := countEnq_set c.threads i _
              (Thread.submit d now delayOk (.insertPending (newTransaction d now))) hget
            simp [enqueuedB] at hset
            omega
      | insertPending newT =>
        simp only [phaseOkB, Bool.and_eq_true, beq_iff_eq] at hph
        obtain ⟨⟨hntid, _⟩, _⟩ := hph
        cases hq : (queryFirst c.store newT.transaction_id).isSome with
        | true =>
          have hstep : stepThread c.store
              (Thread.submit d now delayOk (.insertPending newT)) =
              (Thread.submit d now delayOk (.done .accepted false), c.store) := by
            simp [stepThread, hq]
          rw [hstep]
          refine ⟨?_, hcount, ?_, ?_⟩
          · intro x hx
            rcases List.mem_or_eq_of_mem_set hx with hx' | rfl
            · exact hok x hx'
            · simp [threadOkB, phaseOkB, hval, htid]
          · intro x hx _
            show countId c.store tid = 1
            have hpos : 0 < countId c.store tid := by
              rw [← hntid]
              exact countId_pos_of_isSome c.store newT.transaction_id hq
            omega
          · show countEnq (c.threads.set i
                (Thread.submit d now delayOk (.done .accepted false))) ≤
              countId c.store tid
            have hset := countEnq_set c.threads i _
              (Thread.submit d now delayOk (.done .accepted false)) hget
            simp [enqueuedB] at hset
            omega
        | false =>
          have hzero : countId c.store tid = 0 := by
            rw [← hntid, ← queryFirst_eq_none_iff]
            exact Option.not_isSome_iff_eq_none.mp (by simp [hq])
          have hcnt' : countId (c.store ++ [newT]) tid = 1 := by
            rw [countId_append, hzero, hntid]
            simp
          have henq0 : countEnq c.threads = 0 := by omega
          cases hdOk : delayOk with
          | true =>
            have hstep : stepThread c.store
                (Thread.submit d now true (.insertPending newT)) =
                (Thread.submit d now true (.done .accepted true),
                  c.store ++ [newT]) := by
              simp [stepThread, hq]
            rw [hstep]
            refine ⟨?_, ?_, ?_, ?_⟩
            · intro x hx
              rcases List.mem_or_eq_of_mem_set hx with hx' | rfl
              · exact hok x hx'
              · simp [threadOkB, phaseOkB, hval, htid]
            · show countId (c.store ++ [newT]) tid ≤ 1
              omega
            · intro x hx _
              exact hcnt'
            · show countEnq (c.threads.set i
                  (Thread.submit d now true (.done .accepted true))) ≤
                countId (c.store ++ [newT]) tid
              have hset := countEnq_set c.threads i _
                (Thread.submit d now true (.done .accepted true)) hget
              simp [enqueuedB] at hset
              omega
          | false =>
            have hstep : stepThread c.store
                (Thread.submit d now false (.insertPending newT)) =
                (Thread.submit d now false (.done .serverError false),
                  c.store ++ [newT]) := by
              simp [stepThread, hq]
            rw [hstep]
            refine ⟨?_, ?_, ?_, ?_⟩
            · intro x hx
              rcases List.mem_or_eq_of_mem_set hx with hx' | rfl
              · exact hok x hx'
              · simp [threadOkB, phaseOkB, hval, htid]
            · show countId (c.store ++ [newT]) tid ≤ 1
              omega
            · intro x hx _
              exact hcnt'
            · show countEnq (c.threads.set i
                  (Thread.submit d now false (.done .serverError false))) ≤
                countId (c.store ++ [newT]) tid
              have hset := countEnq_set c.threads i _
                (Thread.submit d now false (.done .serverError false)) hget
              simp [enqueuedB] at hset
              omega
      | done r e =>
        have hstep : stepThread c.store (Thread.submit d now delayOk (.done r e)) =
            (Thread.submit d now delayOk (.done r e), c.store) := rfl
        rw [hstep]
        refine ⟨?_, hcount, ?_, ?_⟩
        · intro x hx
          rcases List.mem_or_eq_of_mem_set hx with hx' | rfl
          · exact hok x hx'
          · simp [threadOkB, phaseOkB, hval, htid]
        · intro x hx hxdone
          show countId c.store tid = 1
          rcases List.mem_or_eq_of_mem_set hx with hx' | rfl
          · exact hdone x hx' hxdone
          · exact hdone _ hmem rfl
        · show countEnq (c.threads.set i
              (Thread.submit d now delayOk (.done r e))) ≤ countId c.store tid
          have hset := countEnq_set c.threads i _
            (Thread.submit d now delayOk (.done r e)) hget
          omega

theorem SubmitInv_run (tid : String) (c : Config) (sched : List Nat)
    (h : SubmitInv tid c) : SubmitInv tid (run c sched) := by
  induction sched generalizing c with
  | nil => exact h
  | cons i rest ih => exact ih (step c i) (SubmitInv_step tid c i h)

theorem run_threads_length (c : Config) (sched : List Nat) :
    (run c sched).threads.length = c.threads.length := by
  induction sched generalizing c with
  | nil => rfl
  | cons i rest ih =>
    show (run (step c i) rest).threads.length = c.threads.length
    rw [ih]
    cases hget : c.threads.get? i with
    | none => rw [step_eq_of_none c i hget]
    | some t =>
      rw [step_eq_of_some c i t hget]
      exact List.length_set c.threads i (stepThread c.store t).1

theorem recordConsistent_setProcessed (s : Store) (tid : String) (now : Nat)
    (h : ∀ t ∈ s, recordConsistent t = true) :
    ∀ t ∈ setProcessed s tid now, recordConsistent t = true := by
  intro t ht
  rcases List.mem_map.mp ht with ⟨x, hx, rfl⟩
  by_cases hc : (x.transaction_id == tid) = true
  · simp [recordConsistent, hc]
  · simp only [Bool.not_eq_true] at hc
    simp [hc]
    exact h x hx

theorem StateInv_step (c : Config) (i : Nat) (h : StateInv c) :
    StateInv (step c i) := by
  obtain ⟨hstore, hth⟩ := h
  cases hget : c.threads.get? i with
  | none => rw [step_eq_of_none c i hget]; exact ⟨hstore, hth⟩
  | some t =>
    rw [step_eq_of_some c i t hget]
    have hmem : t ∈ c.threads := List.get?_mem hget
    have hpr := hth t hmem
    have hsetth : ∀ t' : Thread, pendingRowOkB t' = true →
        ∀ th ∈ c.threads.set i t', pendingRowOkB th = true := by
      intro t' ht' th hthmem
      rcases List.mem_or_eq_of_mem_set hthmem with hx | rfl
      · exact hth th hx
      · exact ht'
    cases t with
    | submit d now delayOk ph =>
      cases ph with
      | start =>
        cases hvb : TransactionWebhookSerializer.is_valid d with
        | false =>
          have hstep : stepThread c.store (Thread.submit d now delayOk .start) =
              (Thread.submit d now delayOk (.done .badRequest false), c.store) := by
            simp [stepThread, hvb]
          rw [hstep]
          exact ⟨hstore, hsetth _ (by simp [pendingRowOkB])⟩
        | true =>
          cases hq : queryFirst c.store (d.transaction_id.getD "") with
          | some r =>
            have hstep : stepThread c.store (Thread.submit d now delayOk .start) =
                (Thread.submit d now delayOk (.done .accepted false), c.store) := by
              simp [stepThread, hvb, hq]
            rw [hstep]
            exact ⟨hstore, hsetth _ (by simp [pendingRowOkB])⟩
          | none =>
            have hstep : stepThread c.store (Thread.submit d now delayOk .start) =
                (Thread.submit d now delayOk
                  (.insertPending (newTransaction d now)), c.store) := by
              simp [stepThread, hvb, hq]
            rw [hstep]
            refine ⟨hstore, hsetth _ ?_⟩
            simp [pendingRowOkB, recordConsistent, newTransaction]
      | insertPending newT =>
        have hcons : recordConsistent newT = true := by
          simpa [pendingRowOkB] using hpr
        cases hq : (queryFirst c.store newT.transaction_id).isSome with
        | true =>
          have hstep : stepThread c.store
              (Thread.submit d now delayOk (.insertPending newT)) =
              (Thread.submit d now delayOk (.done .accepted false), c.store) := by
            simp [stepThread, hq]
          rw [hstep]
          exact ⟨hstore, hsetth _ (by simp [pendingRowOkB])⟩
        | false =>
          have happ : ∀ t ∈ c.store ++ [newT], recordConsistent t = true := by
            intro x hx
            rcases List.mem_append.mp hx with hx' | hx'
            · exact hstore x hx'
            · rcases List.mem_singleton.mp hx' with rfl
              exact hcons
          cases hdOk : delayOk with
          | true =>
            have hstep : stepThread c.store
                (Thread.submit d now true (.insertPending newT)) =
                (Thread.submit d now true (.done .accepted true),
                  c.store ++ [newT]) := by
              simp [stepThread, hq]
            rw [hstep]
            exact ⟨happ, hsetth _ (by simp [pendingRowOkB])⟩
          | false =>
            have hstep : stepThread c.store
                (Thread.submit d now false (.insertPending newT)) =
                (Thread.submit d now false (.done .serverError false),
                  c.store ++ [newT]) := by
              simp [stepThread, hq]
            rw [hstep]
            exact ⟨happ, hsetth _ (by simp [pendingRowOkB])⟩
      | done r e =>
        have hstep : stepThread c.store (Thread.submit d now delayOk (.done r e)) =
            (Thread.submit d now delayOk (.done r e), c.store) := rfl
        rw [hstep]
        exact ⟨hstore, hsetth _ (by simp [pendingRowOkB])⟩
    | finalize tid now ph =>
      cases ph with
      | start =>
        cases hq : queryFirst c.store tid with
        | none =>
          have hstep : stepThread c.store (Thread.finalize tid now .start) =
              (Thread.finalize tid now (.done .notFound), c.store) := by
            simp [stepThread, hq]
          rw [hstep]
          exact ⟨hstore, hsetth _ (by simp [pendingRowOkB])⟩
        | some t0 =>
          cases hst : t0.status with
          | PROCESSED =>
            have hstep : stepThread c.store (Thread.finalize tid now .start) =
                (Thread.finalize tid now (.done .alreadyProcessed), c.store) := by
              simp [stepThread, hq, hst]
            rw [hstep]
            exact ⟨hstore, hsetth _ (by simp [pendingRowOkB])⟩
          | PROCESSING =>
            have hstep : stepThread c.store (Thread.finalize tid now .start) =
                (Thread.finalize tid now .writePending, c.store) := by
              simp [stepThread, hq, hst]
            rw [hstep]
            exact ⟨hstore, hsetth _ (by simp [pendingRowOkB])⟩
      | writePending =>
        have hstep : stepThread c.store (Thread.finalize tid now .writePending) =
            (Thread.finalize tid now (.done .success),
              setProcessed c.store tid now) := rfl
        rw [hstep]
        exact ⟨recordConsistent_setProcessed c.store tid now hstore,
          hsetth _ (by simp [pendingRowOkB])⟩
      | done r =>
        have hstep : stepThread c.store (Thread.finalize tid now (.done r)) =
            (Thread.finalize tid now (.done r), c.store) := rfl
        rw [hstep]
        exact ⟨hstore, hsetth _ (by simp [pendingRowOkB])⟩

theorem StateInv_run (c : Config) (sched : List Nat) (h : StateInv c) :
    StateInv (run c sched) := by
  induction sched generalizing c with
  | nil => exact h
  | cons i rest ih => exact ih (step c i) (StateInv_step c i h)

/-
Sequential redelivery of finalize tasks.
-/

theorem process_transaction_processed (now : Nat) (s : Store) (tid : String)
    (t : Transaction) (hq : queryFirst s tid = some t)
    (hst : t.status = .PROCESSED) :
    process_transaction now s tid = (.alreadyProcessed, s) := by
  simp [process_transaction, hq, hst]

theorem runFinalizes_processed (tid : String) (s : Store) (t : Transaction)
    (hq : queryFirst s tid = some t) (hst : t.status = .PROCESSED)
    (times : List Nat) :
    runFinalizes tid times s =
      (times.map (fun _ => FinalizeResult.alreadyProcessed), s) := by
  induction times with
  | nil => rfl
  | cons now rest ih =>
    simp [runFinalizes, process_transaction_processed now s tid t hq hst, ih]

theorem webhook_not_badRequest (now : Nat) (delayOk : Bool) (s : Store)
    (d : RawWebhook) (hv : TransactionWebhookSerializer.is_valid d = true) :
    (webhook_transaction now delayOk s d).response ≠ .badRequest := by
  simp only [webhook_transaction, hv, Bool.true_eq_false, if_false]
  cases hq : queryFirst s (d.transaction_id.getD "") with
  | some r => simp
  | none => cases delayOk <;> simp

/-
Claims.
-/

instance (tid : String) (c : Config) : Decidable (SubmitInv tid c) := by
  unfold SubmitInv
  infer_instance

instance (c : Config) : Decidable (StateInv c) := by
  unfold StateInv
  infer_instance

/-- Claim C1, counterexample to the stated mechanism.  The handler performs
a read-then-write check-then-insert, not a single atomic insert-if-absent:
its first store round-trip is always the duplicate-check SELECT (`.query`);
on a fresh table the INSERT is a separate, later round-trip (as the
`stepThread` equation shows, the first step leaves the table unchanged and
only schedules the insert), and when the SELECT finds the id the insert is
skipped entirely — the branch is decided by the prior read. -/
theorem C1_counterexample :
    (webhook_transaction 0 true [] sampleBody).events =
      [.query "tx-1", .commitInsert "tx-1", .enqueue "tx-1"] ∧
    (webhook_transaction 0 true [newTransaction sampleBody 0] sampleBody).events =
      [.query "tx-1"] ∧
    stepThread [] (.submit sampleBody 0 true .start) =
      (.submit sampleBody 0 true (.insertPending (newTransaction sampleBody 0)),
        []) := by
  decide

/-- Claim C1 as amended: for any id, K ≥ 1 valid submissions in any
interleaving leave at most one stored row with that id, and exactly one
once every submission has finished; the at-most-one bound is an invariant
(`SubmitInv`) preserved by every scheduler step.  The mechanism, however,
is the store's unique-key constraint at commit time (a lost race raises
`IntegrityError`, answered as a duplicate), behind a racy read-then-check
that the handler performs first. -/
theorem C1_idempotent_creation (tid : String) (c : Config) (sched : List Nat)
    (hinv : SubmitInv tid c) (hne : c.threads ≠ []) :
    countId (run c sched).store tid ≤ 1 ∧
    ((∀ t ∈ (run c sched).threads, submitDoneB t = true) →
      countId (run c sched).store tid = 1) := by
  obtain ⟨hok, hcount, hdone, _⟩ := SubmitInv_run tid c sched hinv
  refine ⟨hcount, ?_⟩
  intro hall
  have hlen : (run c sched).threads ≠ [] := by
    have hl := run_threads_length c sched
    intro hnil
    rw [hnil] at hl
    exact hne (List.eq_nil_of_length_eq_zero hl.symm)
  rcases List.exists_mem_of_ne_nil _ hlen with ⟨t0, ht0⟩
  exact hdone t0 ht0 (hall t0 ht0)

theorem C1_idempotent_creation_witness :
    countId (run c1Config [0, 1, 2, 0, 1, 2]).store "tx-1" = 1 :=
  (C1_idempotent_creation "tx-1" c1Config [0, 1, 2, 0, 1, 2]
    (by decide) (by decide)).2 (by decide)

/-- Claim C2, counterexample.  Two finalizer invocations on the same
pending `tx-1` interleaved as lookup-A, lookup-B, write-A, write-B: after
the third step `processed_at` is 100; the fourth step overwrites it to 200,
and both invocations finish with the success result — the losing
invocation neither observes `COMPLETED` nor returns the skipped result, so
`completedAt` is set twice.  The completion write is not conditional on
the stored state still being `PENDING`. -/
theorem C2_counterexample :
    (run raceConfig [0, 1, 0]).store =
      [{ raceRow with status := .PROCESSED, processed_at := some 100 }] ∧
    (run raceConfig [0, 1, 0, 1]).store =
      [{ raceRow with status := .PROCESSED, processed_at := some 200 }] ∧
    (run raceConfig [0, 1, 0, 1]).threads =
      [.finalize "tx-1" 100 (.done .success),
        .finalize "tx-1" 200 (.done .success)] := by
  decide

/-- Claim C2 as amended: for M ≥ 1 *sequential* (non-overlapping) finalize
invocations on a pending id, exactly the first performs the
`PROCESSING → PROCESSED` transition and sets `processed_at` (to the first
invocation time); every later invocation observes `PROCESSED`, returns the
already-processed result, and leaves the table unchanged.  The dedup check
happens at lookup time, before the fixed delay, and the completion write
itself is unconditional, so the guarantee does not extend to overlapping
invocations (see the counterexample). -/
theorem C2_sequential_single_completion (tid : String) (s : Store)
    (t : Transaction) (now0 : Nat) (rest : List Nat)
    (hq : queryFirst s tid = some t) (hst : t.status = .PROCESSING) :
    runFinalizes tid (now0 :: rest) s =
      (.success :: rest.map (fun _ => FinalizeResult.alreadyProcessed),
        setProcessed s tid now0) ∧
    queryFirst (runFinalizes tid (now0 :: rest) s).2 tid =
      some { t with status := .PROCESSED, processed_at := some now0 } := by
  have h1 : process_transaction now0 s tid = (.success, setProcessed s tid now0) := by
    simp [process_transaction, hq, hst]
  have hq' : queryFirst (setProcessed s tid now0) tid =
      some { t with status := .PROCESSED, processed_at := some now0 } := by
    rw [queryFirst_setProcessed, hq]
    rfl
  have h2 := runFinalizes_processed tid (setProcessed s tid now0)
    { t with status := .PROCESSED, processed_at := some now0 } hq' rfl rest
  constructor
  · simp [runFinalizes, h1, h2]
  · simp [runFinalizes, h1, h2, hq']

theorem C2_sequential_single_completion_witness :
    runFinalizes "tx-1" [100, 200, 300] [raceRow] =
      ([.success, .alreadyProcessed, .alreadyProcessed],
        setProcessed [raceRow] "tx-1" 100) ∧
    queryFirst (runFinalizes "tx-1" [100, 200, 300] [raceRow]).2 "tx-1" =
      some { raceRow with status := .PROCESSED, processed_at := some 100 } :=
  C2_sequential_single_completion "tx-1" [raceRow] raceRow 100 [200, 300]
    (by decide) (by decide)

/-- Claim C3, counterexample.  A payload whose amount is `-100.50` passes
`TransactionWebhookSerializer.is_valid` (the `DecimalField` has no
`min_value`), so the submit is not rejected: it is accepted and a row with
the negative amount is created — contradicting "amount must parse as a
non-negative fixed-point number; any violation (including a negative
amount) yields Rejected ... and no record is created". -/
theorem C3_counterexample :
    TransactionWebhookSerializer.is_valid negBody = true ∧
    (webhook_transaction 7 true [] negBody).response = .accepted ∧
    queryFirst (webhook_transaction 7 true [] negBody).store "tx-neg" =
      some (newTransaction negBody 7) := by
  decide

/-- Claim C3 as amended: `id`, `source`, `destination`, `currency` must be
present, nonempty strings within the bounds 255/255/255/10 and `amount`
a present fixed-point number of at most 20 digits (2 decimal places); any
violation yields the 400 rejection purely — same table, nothing enqueued,
no store round-trip — and a 400 arises only from a validation failure.
The sign of `amount` is not checked: a payload is valid exactly as often
with amount `-a` as with `a`. -/
theorem C3_validation (now : Nat) (delayOk : Bool) (s : Store) (d : RawWebhook) :
    (TransactionWebhookSerializer.is_valid d = false →
      webhook_transaction now delayOk s d =
        { response := .badRequest, store := s, enqueued := [], events := [] }) ∧
    ((webhook_transaction now delayOk s d).response = .badRequest →
      TransactionWebhookSerializer.is_valid d = false) ∧
    (∀ a : Int, TransactionWebhookSerializer.is_valid { d with amount := some a } =
      TransactionWebhookSerializer.is_valid { d with amount := some (-a) }) := by
  refine ⟨?_, ?_, ?_⟩
  · intro h
    simp [webhook_transaction, h]
  · intro h
    by_contra hv
    simp only [Bool.not_eq_false] at hv
    exact webhook_not_badRequest now delayOk s d hv h
  · intro a
    simp [TransactionWebhookSerializer.is_valid, decimalFieldOk]

theorem C3_validation_witness :
    webhook_transaction 1 true [] missingBody =
      { response := .badRequest, store := [], enqueued := [], events := [] } :=
  (C3_validation 1 true [] missingBody).1 (by decide)

/-- Claim C4, counterexample.  On a first-ever submit whose
`process_transaction.delay` fails after the committed insert, the handler
does NOT return Accepted: the exception reaches `except Exception`, which
answers a 500 server error — even though the row is durably stored. -/
theorem C4_counterexample :
    (webhook_transaction 5 false [] sampleBody).response = .serverError ∧
    (webhook_transaction 5 false [] sampleBody).response ≠ .accepted ∧
    queryFirst (webhook_transaction 5 false [] sampleBody).store "tx-1" =
      some (newTransaction sampleBody 5) := by
  decide

/-- Claim C4 as amended: if the enqueue fails after the creating insert has
been committed, the insert stays durable — the row exists and is
discoverable through the query endpoint — but the submit call surfaces the
dispatch failure as its own response, a 500 server error instead of
Accepted, and nothing is enqueued. -/
theorem C4_enqueue_failure (now : Nat) (s : Store) (d : RawWebhook)
    (tid : String) (hv : TransactionWebhookSerializer.is_valid d = true)
    (htid : d.transaction_id = some tid)
    (hfresh : queryFirst s tid = none) :
    webhook_transaction now false s d =
      { response := .serverError, store := s ++ [newTransaction d now],
        enqueued := [], events := [.query tid, .commitInsert tid] } ∧
    queryFirst (webhook_transaction now false s d).store tid =
      some (newTransaction d now) ∧
    (get_transaction (webhook_transaction now false s d).store tid).isSome
      = true := by
  have htid' : (newTransaction d now).transaction_id = tid := by
    simp [newTransaction, htid]
  have h1 : webhook_transaction now false s d =
      { response := .serverError, store := s ++ [newTransaction d now],
        enqueued := [], events := [.query tid, .commitInsert tid] } := by
    simp [webhook_transaction, hv, htid, hfresh]
  have h2 : queryFirst (webhook_transaction now false s d).store tid =
      some (newTransaction d now) := by
    rw [h1]
    exact queryFirst_append_right s (newTransaction d now) tid hfresh htid'
  refine ⟨h1, h2, ?_⟩
  simp [get_transaction, h2]

theorem C4_enqueue_failure_witness :
    webhook_transaction 5 false [] sampleBody =
      { response := .serverError, store := [newTransaction sampleBody 5],
        enqueued := [], events := [.query "tx-1", .commitInsert "tx-1"] } ∧
    queryFirst (webhook_transaction 5 false [] sampleBody).store "tx-1" =
      some (newTransaction sampleBody 5) ∧
    (get_transaction (webhook_transaction 5 false [] sampleBody).store "tx-1").isSome
      = true :=
  C4_enqueue_failure 5 [] sampleBody "tx-1" (by decide) rfl rfl

/-- Claim C5: a finalize task is enqueued exactly when the call performed
the creating insert, and only after the commit.  With a working dispatcher
a valid submit produces one of exactly two round-trip traces: the
duplicate trace `[query]` with nothing enqueued, or the creating trace
`[query, commitInsert, enqueue]` — in which the enqueue strictly follows
the committed insert — with exactly the one task enqueued.  Moreover,
across any interleaving of any number of submissions for the id, at most
one call ends having enqueued a task. -/
theorem C5_single_dispatch (tid : String) :
    (∀ now s d, TransactionWebhookSerializer.is_valid d = true →
      d.transaction_id = some tid →
      ((webhook_transaction now true s d).events = [.query tid] ∧
        (webhook_transaction now true s d).enqueued = []) ∨
      ((webhook_transaction now true s d).events =
          [.query tid, .commitInsert tid, .enqueue tid] ∧
        (webhook_transaction now true s d).enqueued = [tid])) ∧
    (∀ c sched, SubmitInv tid c → countEnq (run c sched).threads ≤ 1) := by
  constructor
  · intro now s d hv htid
    cases hq : queryFirst s tid with
    | some r =>
      left
      simp [webhook_transaction, hv, htid, hq]
    | none =>
      right
      simp [webhook_transaction, hv, htid, hq]
  · intro c sched hinv
    obtain ⟨_, hcount, _, henq⟩ := SubmitInv_run tid c sched hinv
    omega

theorem C5_single_dispatch_witness :
    (((webhook_transaction 3 true [] sampleBody).events = [.query "tx-1"] ∧
        (webhook_transaction 3 true [] sampleBody).enqueued = []) ∨
      ((webhook_transaction 3 true [] sampleBody).events =
          [.query "tx-1", .commitInsert "tx-1", .enqueue "tx-1"] ∧
        (webhook_transaction 3 true [] sampleBody).enqueued = ["tx-1"])) ∧
    countEnq (run c1Config [0, 1, 2, 0, 1, 2]).threads ≤ 1 :=
  ⟨(C5_single_dispatch "tx-1").1 3 [] sampleBody (by decide) rfl,
    (C5_single_dispatch "tx-1").2 c1Config [0, 1, 2, 0, 1, 2] (by decide)⟩

/-- Claim C6: a submit for an id already stored is answered 202 with the
table untouched and nothing enqueued, whatever the stored status — both
when the up-front SELECT finds the row and when the row appears between
the SELECT and the commit, where the `IntegrityError` of the losing insert
is caught and answered identically (no dispatch, still 202); and a 400 is
returned only on a validation failure. -/
theorem C6_existing_id_accepted (now : Nat) (delayOk : Bool) (s : Store)
    (d : RawWebhook) :
    (∀ r, queryFirst s (d.transaction_id.getD "") = some r →
      TransactionWebhookSerializer.is_valid d = true →
      webhook_transaction now delayOk s d =
        { response := .accepted, store := s, enqueued := [],
          events := [.query (d.transaction_id.getD "")] }) ∧
    (∀ newT : Transaction, (queryFirst s newT.transaction_id).isSome = true →
      stepThread s (.submit d now delayOk (.insertPending newT)) =
        (.submit d now delayOk (.done .accepted false), s)) ∧
    ((webhook_transaction now delayOk s d).response = .badRequest →
      TransactionWebhookSerializer.is_valid d = false) := by
  refine ⟨?_, ?_, ?_⟩
  · intro r hq hv
    simp [webhook_transaction, hv, hq]
  · intro newT hq
    simp [stepThread, hq]
  · intro h
    by_contra hv
    simp only [Bool.not_eq_false] at hv
    exact webhook_not_badRequest now delayOk s d hv h

theorem C6_existing_id_accepted_witness :
    webhook_transaction 11 true [processedRow] altBody =
      { response := .accepted, store := [processedRow], enqueued := [],
        events := [.query "tx-1"] } ∧
    stepThread [raceRow] (.submit sampleBody 4 true
        (.insertPending (newTransaction sampleBody 4))) =
      (.submit sampleBody 4 true (.done .accepted false), [raceRow]) ∧
    TransactionWebhookSerializer.is_valid missingBody = false :=
  ⟨(C6_existing_id_accepted 11 true [processedRow] altBody).1 processedRow
      (by decide) (by decide),
    (C6_existing_id_accepted 4 true [raceRow] sampleBody).2.1
      (newTransaction sampleBody 4) (by decide),
    (C6_existing_id_accepted 1 true [] missingBody).2.2 (by decide)⟩

/-- Claim C7: `process_transaction` on an absent id returns the not-found
result with the table unchanged, and on a row already `PROCESSED` returns
the already-processed result with the table unchanged; both are ordinary
returns of the task (no exception, no retry is triggered — the model
result type has no error case reachable from these paths). -/
theorem C7_skip_paths (now : Nat) (s : Store) (tid : String) :
    (queryFirst s tid = none → process_transaction now s tid = (.notFound, s)) ∧
    (∀ t, queryFirst s tid = some t → t.status = .PROCESSED →
      process_transaction now s tid = (.alreadyProcessed, s)) := by
  constructor
  · intro h
    simp [process_transaction, h]
  · intro t hq hst
    simp [process_transaction, hq, hst]

theorem C7_skip_paths_witness :
    process_transaction 9 [] "tx-absent" = (.notFound, []) ∧
    process_transaction 9 [processedRow] "tx-1" =
      (.alreadyProcessed, [processedRow]) :=
  ⟨(C7_skip_paths 9 [] "tx-absent").1 rfl,
    (C7_skip_paths 9 [processedRow] "tx-1").2 processedRow (by decide) (by decide)⟩

/-- Claim C8: a first-ever submit of an id inserts the row with status
`PROCESSING` (the spec state `PENDING`) and `processed_at` null, whether
or not the dispatch succeeds, so a query issued right after the submit
(before the finalizer runs) returns status `"PROCESSING"` and a null
`processed_at`. -/
theorem C8_no_premature_completion (now : Nat) (delayOk : Bool) (s : Store)
    (d : RawWebhook) (tid : String)
    (hv : TransactionWebhookSerializer.is_valid d = true)
    (htid : d.transaction_id = some tid)
    (hfresh : queryFirst s tid = none) :
    queryFirst (webhook_transaction now delayOk s d).store tid =
      some (newTransaction d now) ∧
    (newTransaction d now).status = .PROCESSING ∧
    (newTransaction d now).processed_at = none ∧
    get_transaction (webhook_transaction now delayOk s d).store tid =
      some { transaction_id := tid,
             source_account := d.source_account.getD "",
             destination_account := d.destination_account.getD "",
             amount := d.amount.getD 0,
             currency := d.currency.getD "",
             status := "PROCESSING",
             created_at := some now,
             processed_at := none } := by
  have htid' : (newTransaction d now).transaction_id = tid := by
    simp [newTransaction, htid]
  have hstore : (webhook_transaction now delayOk s d).store =
      s ++ [newTransaction d now] := by
    cases delayOk <;> simp [webhook_transaction, hv, htid, hfresh]
  have h2 : queryFirst (webhook_transaction now delayOk s d).store tid =
      some (newTransaction d now) := by
    rw [hstore]
    exact queryFirst_append_right s (newTransaction d now) tid hfresh htid'
  refine ⟨h2, rfl, rfl, ?_⟩
  simp [get_transaction, h2, newTransaction, htid, TransactionStatus.value]

theorem C8_no_premature_completion_witness :
    queryFirst (webhook_transaction 0 true [] sampleBody).store "tx-1" =
      some (newTransaction sampleBody 0) ∧
    (newTransaction sampleBody 0).status = .PROCESSING ∧
    (newTransaction sampleBody 0).processed_at = none ∧
    get_transaction (webhook_transaction 0 true [] sampleBody).store "tx-1" =
      some { transaction_id := "tx-1", source_account := "A",
             destination_account := "B", amount := 10050, currency := "USD",
             status := "PROCESSING", created_at := some 0,
             processed_at := none } :=
  C8_no_premature_completion 0 true [] sampleBody "tx-1" (by decide) rfl rfl

/-- Claim C9: in every configuration reachable from one whose rows are
consistent and whose invocations have not yet buffered an inconsistent
pending row (in particular, freshly arrived invocations), every stored
row has `processed_at` non-null exactly when its status is `PROCESSED`:
insertion writes `PROCESSING` with a null `processed_at`, and the
completion write sets `PROCESSED` and `processed_at` together. -/
theorem C9_completedAt_iff_completed (c : Config) (sched : List Nat)
    (h : StateInv c) :
    ∀ t ∈ (run c sched).store,
      (t.processed_at ≠ none ↔ t.status = TransactionStatus.PROCESSED) := by
  intro t ht
  have h' := (StateInv_run c sched h).1 t ht
  simp only [recordConsistent] at h'
  rw [beq_iff_eq] at h'
  rw [← Option.isSome_iff_ne_none, h', beq_iff_eq]

theorem C9_completedAt_iff_completed_witness :
    (completedRow.processed_at ≠ none ↔
      completedRow.status = TransactionStatus.PROCESSED) :=
  C9_completedAt_iff_completed c9Config [0, 1, 0, 1] (by decide)
    completedRow (by decide)

/-- Claim C10: when a submit arrives for an id that is already stored, the
whole table — in particular every field of the stored row — is left
unchanged and nothing is enqueued, even when the duplicate payload differs
from the stored row; the handler returns before touching the row. -/
theorem C10_duplicate_payload_ignored (now : Nat) (delayOk : Bool) (s : Store)
    (d : RawWebhook) (r : Transaction)
    (h : queryFirst s (d.transaction_id.getD "") = some r) :
    (webhook_transaction now delayOk s d).store = s ∧
    (webhook_transaction now delayOk s d).enqueued = [] ∧
    queryFirst (webhook_transaction now delayOk s d).store
      (d.transaction_id.getD "") = some r := by
  cases hv : TransactionWebhookSerializer.is_valid d with
  | false =>
    refine ⟨?_, ?_, ?_⟩ <;> simp [webhook_transaction, hv, h]
  | true =>
    refine ⟨?_, ?_, ?_⟩ <;> simp [webhook_transaction, hv, h]

theorem C10_duplicate_payload_ignored_witness :
    (webhook_transaction 11 true [processedRow] altBody).store =
      [processedRow] ∧
    (webhook_transaction 11 true [processedRow] altBody).enqueued = [] ∧
    queryFirst (webhook_transaction 11 true [processedRow] altBody).store
      "tx-1" = some processedRow :=
  C10_duplicate_payload_ignored 11 true [processedRow] altBody processedRow
    (by decide)
